import Mathlib

/-!
Verification of the NewsRAG ingestion-classification-deduplication-embedding
pipeline against its specification.

The Python sources are shallowly embedded:
* strings are Lean `String`s; Python float scores are modelled as `ℚ`
  (with `math.log` and `math.sqrt` abstracted as function parameters,
  since their float values never influence control flow shape);
* the MongoDB article collection is a `List Doc` and every update/delete
  is explicit list surgery keyed on `_id`;
* external services (Bedrock embedding calls, `$vectorSearch` queries)
  are function parameters returning an outcome datatype, so one run of a
  batch job is a pure function of the store and the service behaviour.
-/

namespace NewsRAG

/-! ## Python string primitives -/

/-- Python `str.lower()` (ASCII-faithful model). -/
def pyLower (s : String) : String := String.mk (s.toList.map Char.toLower)

/-- Python `str.strip()`: drop leading and trailing whitespace. -/
def pyStrip (s : String) : String :=
  String.mk (((s.toList.dropWhile Char.isWhitespace).reverse.dropWhile
      Char.isWhitespace).reverse)

/-- Python `(s or '').strip().lower()`, the normalisation used by
`remove_duplicates` in `scrape_news.py`. -/
def pyStripLower (s : String) : String := pyLower (pyStrip s)

/-- Contiguous-sublist test on character lists. -/
def subListOf (needle : List Char) : List Char → Bool
  | [] => needle.isEmpty
  | c :: t => needle.isPrefixOf (c :: t) || subListOf needle t

/-- Python `needle in hay` (substring containment). -/
def containsSub (hay needle : String) : Bool :=
  subListOf needle.toList hay.toList

/-- Python `s[:n]` on strings: the first `n` characters. -/
def pyTake (s : String) (n : Nat) : String := String.mk (s.toList.take n)

/-- Whether a string is empty after Python `strip()` (i.e. all whitespace). -/
def stripEmpty (s : String) : Bool := s.toList.all Char.isWhitespace

/-! ## The Article data model (`models/article.py`) -/

/-- The `Article` dataclass of `models/article.py`, after `__post_init__`
has run (so `keywords`, `source_list`, `occurrence_count` are filled). -/
structure Article where
  title : String
  url : String
  source : String
  published_date : ℚ
  content : String
  summary : Option String := none
  author : Option String := none
  category : Option String := none
  keywords : List String := []
  image_url : Option String := none
  source_list : List String := []
  occurrence_count : Nat := 1
  embedding : Option (List ℚ) := none
  confidence : ℚ := 0
  highlight : Bool := false
deriving DecidableEq, Repr

/-- Constructing an `Article`: the dataclass constructor takes `None`
defaults for `keywords`, `source_list` and `occurrence_count`, and
`__post_init__` replaces `None` by `[]`, `[self.source]` and `1`. -/
def Article.construct (title url source : String) (published : ℚ)
    (content : String) (summary author category image_url : Option String)
    (keywords0 sourceList0 : Option (List String)) (occ0 : Option Nat) :
    Article :=
  { title := title, url := url, source := source, published_date := published
    content := content, summary := summary, author := author
    category := category, image_url := image_url
    keywords := keywords0.getD []
    source_list := sourceList0.getD [source]
    occurrence_count := occ0.getD 1 }

/-! ## Exact-duplicate elimination (`scrape_news.py`, `remove_duplicates`) -/

/-- The `api_sources` set of `remove_duplicates`. -/
def api_sources : List String :=
  ["the guardian api", "guardian api", "gnews api", "newsdata.io api",
   "newsdata.io", "gnews", "currents api"]

/-- `is_api_source`: the normalised source contains one of the API names. -/
def is_api_source (a : Article) : Bool :=
  api_sources.any (fun n => containsSub (pyStripLower a.source) n)

/-- First component of the Python sort key `(not is_api_source(a), ...)`:
`False` = 0 sorts before `True` = 1. -/
def apiRank (a : Article) : Nat := if is_api_source a then 0 else 1

/-- Python string comparison: lexicographic on code points. -/
def charListLeB : List Char → List Char → Bool
  | [], _ => true
  | _ :: _, [] => false
  | a :: as, b :: bs =>
    if a.toNat < b.toNat then true
    else if b.toNat < a.toNat then false
    else charListLeB as bs

/-- Python `s ≤ t` on strings. -/
def strLeB (a b : String) : Bool := charListLeB a.toList b.toList

/-- The sort key order of `sorted(articles, key=lambda a:
(not is_api_source(a), a.title or ''))`: lexicographic on (rank, title). -/
def keyLE (a b : Article) : Prop :=
  apiRank a < apiRank b ∨ (apiRank a = apiRank b ∧ strLeB a.title b.title = true)

instance (a b : Article) : Decidable (keyLE a b) := by
  unfold keyLE; infer_instance

/-- Stable insertion step of the model of Python's stable `sorted`:
an element is inserted before the first element it is `keyLE`-below-or-equal,
so earlier input elements precede later equal-keyed ones. -/
def insertSorted (x : Article) : List Article → List Article
  | [] => [x]
  | y :: ys => if keyLE x y then x :: y :: ys else y :: insertSorted x ys

/-- Model of `sorted(articles, key=...)` (stable, ascending). -/
def sortByKey : List Article → List Article
  | [] => []
  | x :: xs => insertSorted x (sortByKey xs)

/-- The source-agnostic content key `(title, summary)` (normalised). -/
def normKeyOf (a : Article) : String × String :=
  (pyStripLower a.title, pyStripLower (a.summary.getD ""))

/-- Lookup in the `seen_content` dict (assoc list, first match). -/
def lookupSeen (acc : List ((String × String) × Article))
    (k : String × String) : Option Article :=
  (acc.find? (fun p => decide (p.1 = k))).map Prod.snd

/-- The main loop of `remove_duplicates`: processing order builds
`seen_content` keyed on the content key, first writer wins (insertion
order preserved, as in a Python dict). -/
def collectSeen : List Article → List ((String × String) × Article) →
    List ((String × String) × Article)
  | [], acc => acc
  | x :: xs, acc =>
    match lookupSeen acc (normKeyOf x) with
    | none => collectSeen xs (acc ++ [(normKeyOf x, x)])
    | some _ => collectSeen xs acc

/-- `NewsAggregator.remove_duplicates`: sort (API sources first, stable),
fold into `seen_content`, return `list(seen_content.values())`. -/
def remove_duplicates (articles : List Article) : List Article :=
  (collectSeen (sortByKey articles) []).map Prod.snd

/-! ## The MongoDB article store -/

/-- A persisted article document. `id` models the Mongo `_id` (unique in a
well-formed store); `published` models the `published_date` value with ISO
string comparison replaced by the order on `ℚ`. -/
structure Doc where
  id : Nat
  url : String
  title : String
  summary : String
  content : String
  source : String
  published : ℚ
  category : Option String := none
  confidence : ℚ := 0
  embedding : Option (List ℚ) := none
  embedding_status : String := "pending"
  embedding_retry_count : Nat := 0
  embedding_error : Option String := none
  source_list : List String := []
  occurrence_count : Nat := 1
  highlight : Bool := false
deriving DecidableEq, Repr

/-- The collection, in storage order. -/
abbrev Store := List Doc

/-- `update_one({'_id': i}, ...)`: Mongo `_id` values are unique, so the
update rewrites every document carrying the id. -/
def updateById (s : Store) (i : Nat) (f : Doc → Doc) : Store :=
  s.map (fun d => if d.id = i then f d else d)

/-- `delete_many({'_id': {'$in': ids}})`. -/
def deleteByIds (s : Store) (ids : List Nat) : Store :=
  s.filter (fun d => !(ids.contains d.id))

/-- `count_documents({'_id': i}) == 0`. -/
def absentById (s : Store) (i : Nat) : Bool := s.countP (fun d => d.id = i) == 0

/-! ## Semantic deduplicator (`deduplicator_lambda.py`) -/

/-- `SIMILARITY_THRESHOLD = 0.85` (as the reduced rational `17/20`). -/
def SIMILARITY_THRESHOLD : ℚ := mkRat 85 100

/-- One row of the `$vectorSearch` + `$project` pipeline output:
`_id`, `source`, `title` and the `vectorSearchScore` similarity. -/
structure SimResult where
  id : Nat
  source : String
  title : String
  similarity : ℚ
deriving DecidableEq, Repr

/-- The `$match` stage: keep results with
`similarity ≥ SIMILARITY_THRESHOLD` and `_id ≠` the anchor's id. -/
def simFilter (selfId : Nat) (rs : List SimResult) : List SimResult :=
  rs.filter (fun r =>
    decide (SIMILARITY_THRESHOLD ≤ r.similarity) && !(r.id == selfId))

/-- Python-set accumulation of source names: add if not already present
(the observable content of `set.add`; a concrete order is fixed since only
membership and cardinality are ever used). -/
def addSource (acc : List String) (s : String) : List String :=
  if s ∈ acc then acc else acc ++ [s]

/-- `original_sources = {article['source']}` followed by adding every
similar article's source. -/
def unionSources (anchor : Doc) (sims : List SimResult) : List String :=
  (sims.map SimResult.source).foldl addSource [anchor.source]

/-- Body of the per-anchor iteration of `deduplicate_articles`: existence
check, similarity query (which may raise), `$match` filtering, then
consolidation (update the anchor's `source_list`/`occurrence_count` and
delete the similar documents). -/
def dedupStep (q : Doc → Except String (List SimResult)) (s : Store)
    (a : Doc) : Except String Store :=
  if absentById s a.id then .ok s
  else
    match q a with
    | .error e => .error e
    | .ok rs =>
      let sims := simFilter a.id rs
      if sims.isEmpty then .ok s
      else
        let srcs := unionSources a sims
        let s1 := updateById s a.id (fun d =>
          { d with source_list := srcs, occurrence_count := srcs.length })
        .ok (deleteByIds s1 (sims.map SimResult.id))

/-- The loop over the snapshot `articles_to_check`. A raised exception
carries the store as already mutated (Mongo writes are not rolled back),
and no further snapshot item is processed. -/
def dedupLoop (q : Doc → Except String (List SimResult)) :
    List Doc → Store → Except (String × Store) Store
  | [], s => .ok s
  | a :: as, s =>
    match dedupStep q s a with
    | .error e => .error (e, s)
    | .ok s' => dedupLoop q as s'

/-- `deduplicate_articles`: snapshot = every document whose `embedding`
field exists and is non-null, then the consolidation loop. -/
def deduplicate_articles (q : Doc → Except String (List SimResult))
    (s : Store) : Except (String × Store) Store :=
  dedupLoop q (s.filter (fun d => d.embedding.isSome)) s

/-! ## Highlighter (`deduplicator_lambda.py`, `update_highlights`) -/

/-- `HIGHLIGHT_KEYWORDS`. -/
def HIGHLIGHT_KEYWORDS : List String :=
  ["breaking", "alert", "exclusive", "just in", "major", "urgent"]

/-- `KEYWORD_WEIGHT = 0.6`. -/
def KEYWORD_WEIGHT : ℚ := 6/10

/-- `FREQUENCY_WEIGHT = 0.4`. -/
def FREQUENCY_WEIGHT : ℚ := 4/10

/-- `HIGHLIGHT_COUNT = 5`. -/
def HIGHLIGHT_COUNT : Nat := 5

/-- A regex word character (`\w`): alphanumeric or underscore. -/
def wordChar (c : Char) : Bool := c.isAlphanum || c == '_'

/-- A `\b` boundary next to a word character of the pattern: the adjacent
text character (if any) must not be a word character. -/
def boundaryOk : Option Char → Bool
  | none => true
  | some c => !wordChar c

/-- The pattern matches at the current position with a trailing `\b`. -/
def matchHere (kw t : List Char) : Bool :=
  kw.isPrefixOf t && boundaryOk (t.drop kw.length).head?

/-- `re.search(r'\b' + kw + r'\b', text)` for the highlight keywords
(which begin and end with word characters): try every position, tracking
the previous character for the leading boundary. -/
def searchFrom (kw : List Char) : Option Char → List Char → Bool
  | prev, [] => boundaryOk prev && matchHere kw []
  | prev, c :: t => (boundaryOk prev && matchHere kw (c :: t)) ||
      searchFrom kw (some c) t

/-- Word-boundary keyword search over a string. -/
def reWordSearch (kw text : String) : Bool :=
  searchFrom kw.toList none text.toList

/-- `calculate_highlight_score`. -/
def calculate_highlight_score (d : Doc) : ℚ :=
  let content := pyLower d.title ++ " " ++ pyLower d.summary
  let hits := HIGHLIGHT_KEYWORDS.countP (fun kw => reWordSearch kw content)
  (if hits > 0 then KEYWORD_WEIGHT else 0) +
    min ((d.occurrence_count : ℚ) / 10) 1 * FREQUENCY_WEIGHT

/-- Grouping key: `article.get('category', 'Uncategorized')`. -/
def catOf (d : Doc) : String := d.category.getD "Uncategorized"

/-- The recency window `published_date ≥ cutoff`. -/
def inWindow (cutoff : ℚ) (d : Doc) : Bool := decide (cutoff ≤ d.published)

/-- Stable descending insertion (model of Python's stable
`sorted(..., reverse=True)`): an element goes before the first element
whose score does not exceed its own. -/
def insertDescBy (score : Doc → ℚ) (x : Doc) : List Doc → List Doc
  | [] => [x]
  | y :: ys =>
    if score y ≤ score x then x :: y :: ys else y :: insertDescBy score x ys

/-- Stable descending sort by score. -/
def sortDescBy (score : Doc → ℚ) : List Doc → List Doc
  | [] => []
  | x :: xs => insertDescBy score x (sortDescBy score xs)

/-- Key order of a Python `defaultdict` built by appending: keys in order
of first appearance. -/
def firstDedupAux (seen : List String) : List String → List String
  | [] => []
  | x :: xs =>
    if x ∈ seen then firstDedupAux seen xs
    else x :: firstDedupAux (x :: seen) xs

/-- Deduplicate keeping first occurrences. -/
def firstDedup (l : List String) : List String := firstDedupAux [] l

/-- The set `highlighted_ids`: per category (in first-appearance order),
the ids of the first `HIGHLIGHT_COUNT` articles of the stable descending
sort by `calculate_highlight_score`. -/
def topHighlightIds (cutoff : ℚ) (store : Store) : List Nat :=
  let articles := store.filter (inWindow cutoff)
  (firstDedup (articles.map catOf)).flatMap (fun c =>
    ((sortDescBy calculate_highlight_score
        (articles.filter (fun d => catOf d = c))).take HIGHLIGHT_COUNT).map
      Doc.id)

/-- `update_highlights`: if no recent article exists, return unchanged;
otherwise reset `highlight` on the window and set it on the collected ids
(the two `update_many` calls, composed per document). -/
def update_highlights (cutoff : ℚ) (store : Store) : Store :=
  if (store.filter (inWindow cutoff)).isEmpty then store
  else
    let ids := topHighlightIds cutoff store
    store.map (fun d =>
      if ids.contains d.id then { d with highlight := true }
      else if inWindow cutoff d then { d with highlight := false }
      else d)

/-! ## Embedding stage (`embedding_lambda.py`) -/

/-- Modelled from the spec: the outcome of one
`BedrockEmbeddings.generate_embedding` call as observed by the caller.
The spec's error taxonomy distinguishes the retryable rate-limit error
(the `BedrockThrottlingError` the handler imports, whose defining module
is not part of the sources) from fatal errors; a success returns the
vector. -/
inductive EmbedOutcome where
  | success (v : List ℚ)
  | throttle
  | failure (msg : String)
deriving DecidableEq, Repr

/-- The text composed for embedding:
`f"{title} {summary or content[:500]}"`. -/
def embedText (a : Doc) : String :=
  a.title ++ " " ++ (if a.summary ≠ "" then a.summary else pyTake a.content 500)

/-- Mark a document failed with a reason. -/
def setFailed (msg : String) (d : Doc) : Doc :=
  { d with embedding_status := "failed", embedding_error := some msg }

/-- The per-article loop of `generate_embeddings_for_pending` over the
snapshot of pending articles. On throttling the run increments the retry
counter (re-queueing as `pending`), escalates to `failed` once the
incremented count reaches the configured maximum, and aborts the rest of
the batch. -/
def runEmbeddingLoop (svc : String → EmbedOutcome) (maxRetry : Nat) :
    List Doc → Store → Store
  | [], s => s
  | a :: as, s =>
    if stripEmpty (embedText a) then
      runEmbeddingLoop svc maxRetry as
        (updateById s a.id (setFailed "Empty content"))
    else
      match svc (embedText a) with
      | .success v =>
        runEmbeddingLoop svc maxRetry as (updateById s a.id (fun d =>
          { d with embedding := some v, embedding_status := "complete",
                   embedding_error := none }))
      | .throttle =>
        let s1 := updateById s a.id (fun d =>
          { d with embedding_retry_count := d.embedding_retry_count + 1,
                   embedding_status := "pending",
                   embedding_error := some "Throttled: will retry later" })
        if maxRetry ≤ a.embedding_retry_count + 1 then
          updateById s1 a.id (setFailed "Throttling persisted after retries")
        else s1
      | .failure msg =>
        runEmbeddingLoop svc maxRetry as (updateById s a.id (setFailed msg))

/-- `generate_embeddings_for_pending`: snapshot the `pending` documents,
then run the loop. -/
def generate_embeddings_for_pending (svc : String → EmbedOutcome)
    (maxRetry : Nat) (s : Store) : Store :=
  runEmbeddingLoop svc maxRetry
    (s.filter (fun d => d.embedding_status == "pending")) s

/-! ## Keyword classifier (`lambda_package/keyword_classifier.py`)

`math.log` and `math.sqrt` are abstracted as parameters `logQ : ℚ → ℚ`
(applied to the exact rational `total/freq`) and `sqrtQ : ℕ → ℕ → ...`
(applied to the match count); no claim depends on their float values. -/

/-- `category_keywords['sports']`. -/
def sportsKeywords : List (String × ℚ) :=
  [("cricket", 3), ("afl", 3), ("nrl", 3), ("rugby", 3),
   ("football", mkRat 5 2), ("soccer", mkRat 5 2), ("tennis", mkRat 5 2), ("basketball", mkRat 5 2),
   ("netball", mkRat 5 2), ("swimming", mkRat 5 2), ("athletics", mkRat 5 2),
   ("formula one", 3), ("f1", 3), ("olympics", 3), ("championship", 2),
   ("tournament", 2),
   ("match", mkRat 3 2), ("game", mkRat 3 2), ("team", mkRat 3 2), ("player", mkRat 3 2),
   ("coach", mkRat 3 2), ("goal", mkRat 3 2), ("score", mkRat 3 2), ("win", 1), ("loss", 1),
   ("victory", mkRat 3 2), ("defeat", mkRat 3 2), ("stadium", 2), ("league", 2),
   ("season", mkRat 3 2),
   ("wicket", mkRat 5 2), ("innings", mkRat 5 2), ("bowler", mkRat 5 2), ("batsman", mkRat 5 2),
   ("try", 1), ("penalty", 1), ("referee", mkRat 3 2), ("umpire", 2)]

/-- `category_keywords['music']`. -/
def musicKeywords : List (String × ℚ) :=
  [("concert", 3), ("album", 3), ("tour", mkRat 5 2), ("festival", mkRat 5 2),
   ("grammy", 3), ("aria", 3), ("spotify", mkRat 5 2), ("billboard", mkRat 5 2),
   ("singer", 2), ("band", 2), ("musician", 2), ("artist", mkRat 3 2),
   ("song", 2), ("music", mkRat 3 2), ("recording", 2), ("performance", mkRat 3 2),
   ("single", 2), ("release", mkRat 3 2), ("debut", 2), ("soundtrack", mkRat 5 2),
   ("rock", mkRat 3 2), ("pop", mkRat 3 2), ("hip hop", 2), ("rap", 2),
   ("jazz", 2), ("classical", 2), ("country", mkRat 3 2)]

/-- `category_keywords['finance']`. -/
def financeKeywords : List (String × ℚ) :=
  [("asx", 3), ("stock market", 3), ("shares", mkRat 5 2), ("dividend", 3),
   ("rba", 3), ("interest rate", 3), ("inflation", mkRat 5 2), ("gdp", 3),
   ("reserve bank", 3), ("central bank", 3), ("federal reserve", 3),
   ("investment", 2), ("investor", 2), ("trading", 2), ("market", mkRat 3 2),
   ("stock", 2), ("share", 2), ("equity", mkRat 5 2), ("bond", mkRat 5 2),
   ("currency", 2), ("dollar", mkRat 3 2), ("economy", mkRat 3 2), ("economic", mkRat 3 2),
   ("financial", 2), ("banking", 2), ("bank", mkRat 3 2), ("profit", mkRat 3 2),
   ("revenue", 2), ("earnings", 2), ("quarter", 1), ("fiscal", mkRat 5 2),
   ("bitcoin", mkRat 5 2), ("cryptocurrency", mkRat 5 2), ("crypto", 2),
   ("blockchain", mkRat 5 2)]

/-- `category_keywords['lifestyle']`. -/
def lifestyleKeywords : List (String × ℚ) :=
  [("fashion", 3), ("beauty", mkRat 5 2), ("wellness", mkRat 5 2), ("fitness", mkRat 5 2),
   ("recipe", 3), ("travel", mkRat 5 2), ("destination", mkRat 5 2), ("vacation", mkRat 5 2),
   ("health", 2), ("diet", mkRat 5 2), ("nutrition", mkRat 5 2), ("exercise", mkRat 5 2),
   ("style", mkRat 3 2), ("designer", 2), ("makeup", mkRat 5 2), ("skincare", mkRat 5 2),
   ("restaurant", 2), ("food", mkRat 3 2), ("dining", 2), ("chef", 2),
   ("hotel", 2), ("resort", mkRat 5 2), ("holiday", 2), ("tourism", 2),
   ("home", 1), ("decor", mkRat 5 2), ("interior", 2), ("garden", 2),
   ("relationship", 2), ("parenting", mkRat 5 2), ("family", 1)]

/-- Insertion order of the `category_keywords` dict. -/
def categoryNames : List String := ["sports", "music", "finance", "lifestyle"]

/-- The per-category keyword table. -/
def keywordsOf (c : String) : List (String × ℚ) :=
  if c = "sports" then sportsKeywords
  else if c = "music" then musicKeywords
  else if c = "finance" then financeKeywords
  else if c = "lifestyle" then lifestyleKeywords
  else []

/-- `term_doc_freq[t]`: in how many category tables the term occurs. -/
def docFreq (t : String) : Nat :=
  (categoryNames.filter (fun c => (keywordsOf c).any (fun p => p.1 == t))).length

/-- `self.idf_scores.get(term, 1.0)`: the table built by `_calculate_idf`
holds `log(total_categories / doc_freq)` for every term occurring in some
category; absent terms default to `1.0`. -/
def idfVal (logQ : ℚ → ℚ) (t : String) : ℚ :=
  if 0 < docFreq t then logQ ((categoryNames.length : ℚ) / (docFreq t : ℚ))
  else 1

/-- Normalisation of `_extract_text_features`: a character that is neither
a word character, whitespace nor a hyphen is replaced by a space
(`re.sub(r'[^\w\s-]', ' ', text)`). -/
def cleanChar (c : Char) : Char :=
  if wordChar c || c.isWhitespace || c == '-' then c else ' '

/-- Python `str.split()`: split on whitespace runs, dropping empties. -/
def splitWsAux : List Char → List Char → List String
  | cur, [] => if cur.isEmpty then [] else [String.mk cur.reverse]
  | cur, c :: t =>
    if c.isWhitespace then
      if cur.isEmpty then splitWsAux [] t
      else String.mk cur.reverse :: splitWsAux [] t
    else splitWsAux (c :: cur) t

/-- Python `text.split()`. -/
def pySplit (s : String) : List String := splitWsAux [] s.toList

/-- The token list of `_extract_text_features`: lowercase, substitute
non-word characters, split. -/
def extractWords (text : String) : List String :=
  pySplit (String.mk ((text.toList.map Char.toLower).map cleanChar))

/-- The two-word phrases counted alongside unigrams. -/
def bigramsOf : List String → List String
  | a :: b :: t => (a ++ " " ++ b) :: bigramsOf (b :: t)
  | _ => []

/-- `term_freq[t]`: occurrences of `t` among unigrams and bigrams. A term
is a key of the Python dict exactly when this count is nonzero. -/
def termFreqOf (text : String) (t : String) : Nat :=
  (extractWords text ++ bigramsOf (extractWords text)).count t

/-- The accumulation loop of `_calculate_tfidf_score`:
`(score, matches)` over the category's keyword table. -/
def tfidfScoreFold (logQ : ℚ → ℚ) (tf : String → Nat)
    (kws : List (String × ℚ)) : ℚ × Nat :=
  kws.foldl (fun acc p =>
    if tf p.1 ≠ 0 then
      (acc.1 + (tf p.1 : ℚ) * idfVal logQ p.1 * p.2, acc.2 + 1)
    else acc) (0, 0)

/-- `_calculate_tfidf_score`: divide by `sqrt(matches)` when any keyword
matched. -/
def tfidfScore (logQ : ℚ → ℚ) (sqrtQ : Nat → ℚ) (tf : String → Nat)
    (kws : List (String × ℚ)) : ℚ :=
  let r := tfidfScoreFold logQ tf kws
  if 0 < r.2 then r.1 / sqrtQ r.2 else r.1

/-- The weighted text
`f"{title} " * 3 + f"{summary} " * 2 + f"{content[:1000]}"`. -/
def combinedText (title content summary : String) : String :=
  (title ++ " ") ++ (title ++ " ") ++ (title ++ " ") ++
    (summary ++ " ") ++ (summary ++ " ") ++ pyTake content 1000

/-- `category_scores` in insertion order. -/
def classifyScores (logQ : ℚ → ℚ) (sqrtQ : Nat → ℚ)
    (title content summary : String) : List (String × ℚ) :=
  categoryNames.map (fun c =>
    (c, tfidfScore logQ sqrtQ (termFreqOf (combinedText title content summary))
      (keywordsOf c)))

/-- `total_score`. -/
def classifyTotal (logQ : ℚ → ℚ) (sqrtQ : Nat → ℚ)
    (title content summary : String) : ℚ :=
  ((classifyScores logQ sqrtQ title content summary).map Prod.snd).sum

/-- Python `max(category_scores, key=category_scores.get)`: the first
maximal entry (replacement only on a strictly greater value). -/
def argmaxFirst : List (String × ℚ) → String × ℚ
  | [] => ("", 0)
  | p :: ps => ps.foldl (fun best q => if best.2 < q.2 then q else best) p

/-- `best_score`. -/
def classifyBest (logQ : ℚ → ℚ) (sqrtQ : Nat → ℚ)
    (title content summary : String) : ℚ :=
  (argmaxFirst (classifyScores logQ sqrtQ title content summary)).2

/-- Line 189 of `keyword_classifier.py`:
`if score_percentage < 0.05: return None, 0.0`. -/
def shareRejected (p : ℚ) : Bool := decide (p < 5/100)

/-- `KeywordClassifier.classify`. -/
def classify (logQ : ℚ → ℚ) (sqrtQ : Nat → ℚ)
    (title content summary : String) : Option String × ℚ :=
  if (extractWords (combinedText title content summary)).isEmpty then
    (none, 0)
  else
    let scores := classifyScores logQ sqrtQ title content summary
    let total := (scores.map Prod.snd).sum
    if total = 0 then (none, 0)
    else
      let best := argmaxFirst scores
      let share := if 0 < total then best.2 / total else 0
      if shareRejected share then (none, 0)
      else
        let conf := min (best.2 / 5) 1
        if conf < 5/100 then (none, 0)
        else (some best.1, conf)

/-! Specification-side definitions for the refinement claim about the
scoring formula, written from the specification's words. -/

/-- Spec: `idf(t) = log(numCategories / numCategoriesContainingKeyword)`. -/
def specIdf (logQ : ℚ → ℚ) (t : String) : ℚ :=
  logQ ((categoryNames.length : ℚ) / (docFreq t : ℚ))

/-- Spec: weighted text built by repeating the title ×3, summary ×2 and
the first 1000 characters of the content ×1. -/
def specWeightedText (title content summary : String) : String :=
  String.join (List.replicate 3 (title ++ " ")) ++
    String.join (List.replicate 2 (summary ++ " ")) ++ pyTake content 1000

/-- Spec: `score = (Σ termFreq(t)·idf(t)·weight(t) over matching terms)
/ sqrt(matchCount)`. -/
def specCategoryScore (logQ : ℚ → ℚ) (sqrtQ : Nat → ℚ) (tf : String → Nat)
    (kws : List (String × ℚ)) : ℚ :=
  let matching := kws.filter (fun p => tf p.1 ≠ 0)
  ((matching.map (fun p => (tf p.1 : ℚ) * specIdf logQ p.1 * p.2)).sum) /
    sqrtQ matching.length

/-! ## Decidability of run results -/

instance {ε α : Type} [DecidableEq ε] [DecidableEq α] :
    DecidableEq (Except ε α) := fun a b =>
  match a, b with
  | .ok x, .ok y =>
    if h : x = y then .isTrue (by rw [h])
    else .isFalse (by intro hh; injection hh; contradiction)
  | .error x, .error y =>
    if h : x = y then .isTrue (by rw [h])
    else .isFalse (by intro hh; injection hh; contradiction)
  | .ok _, .error _ => .isFalse (by intro hh; exact Except.noConfusion hh)
  | .error _, .ok _ => .isFalse (by intro hh; exact Except.noConfusion hh)

/-! ## Concrete documents and query behaviours used by the scenarios -/

/-- A stored, embedded article from source `s1`. -/
def dSimA : Doc :=
  { id := 1, url := "u1", title := "tA", summary := "sumA"
    content := "", source := "s1", published := 0, embedding := some [1, 0]
    embedding_status := "complete" }

/-- A stored, embedded article from source `s2`. -/
def dSimB : Doc :=
  { id := 2, url := "u2", title := "tB", summary := "sumB"
    content := "", source := "s2", published := 0, embedding := some [0, 1]
    embedding_status := "complete" }

/-- A stored, embedded article from source `s3`. -/
def dSimC : Doc :=
  { id := 3, url := "u3", title := "tC", summary := "sumC"
    content := "", source := "s3", published := 0, embedding := some [1, 1]
    embedding_status := "complete" }

/-- A `$vectorSearch` behaviour under which `dSimA` and `dSimB` see each
other with similarity `x` (and themselves with similarity 1). -/
def qSim (x : ℚ) : Doc → Except String (List SimResult) := fun d =>
  if d.id = 1 then .ok [⟨1, "s1", "tA", 1⟩, ⟨2, "s2", "tB", x⟩]
  else .ok [⟨2, "s2", "tB", 1⟩, ⟨1, "s1", "tA", x⟩]

/-- The consolidated survivor of `dSimA` and `dSimB`. -/
def dSimAB : Doc :=
  { dSimA with source_list := ["s1", "s2"], occurrence_count := 2 }

/-- Claim C1: in `deduplicate_articles`, a neighbour returned by the
nearest-neighbour query is kept for merging iff its similarity is at least
0.85 and its id differs from the anchor's; two articles at similarity 0.84
stay separate with `occurrence_count` 1 each, while at 0.86 they collapse
to one survivor with `occurrence_count` 2 and a two-element
`source_list`. -/
theorem C1_dedup_threshold_boundary :
    (∀ (a : Doc) (rs : List SimResult) (r : SimResult),
      r ∈ simFilter a.id rs ↔
        r ∈ rs ∧ 85/100 ≤ r.similarity ∧ r.id ≠ a.id)
    ∧ (deduplicate_articles (qSim (mkRat 84 100)) [dSimA, dSimB] =
        .ok [dSimA, dSimB]
      ∧ dSimA.occurrence_count = 1 ∧ dSimB.occurrence_count = 1)
    ∧ (deduplicate_articles (qSim (mkRat 86 100)) [dSimA, dSimB] =
        .ok [dSimAB]
      ∧ dSimAB.occurrence_count = 2 ∧ dSimAB.source_list.length = 2) := by
  refine ⟨?_, by decide, by decide⟩
  intro a rs r
  have hst : SIMILARITY_THRESHOLD = 85/100 := by
    unfold SIMILARITY_THRESHOLD
    rw [Rat.mkRat_eq_div]
    norm_num
  simp [simFilter, List.mem_filter, hst, and_assoc]

/-- Modelled from the spec: an embedding service that answers every call
with the rate-limit (throttling) error. -/
def throttleSvc : String → EmbedOutcome := fun _ => .throttle

/-- The state of an article re-queued after a throttling error, with its
retry counter at `n`. -/
def throttlePending (n : Nat) (d : Doc) : Doc :=
  { d with embedding_retry_count := n, embedding_status := "pending"
           embedding_error := some "Throttled: will retry later" }

/-- The state of an article whose throttling retries are exhausted. -/
def throttleFailed (n : Nat) (d : Doc) : Doc :=
  { d with embedding_retry_count := n, embedding_status := "failed"
           embedding_error := some "Throttling persisted after retries" }

/-- Claim C4: with the maximum retry count configured to 3, an article
pending embedding that receives three consecutive throttling errors ends
with `embedding_status = "failed"` and `embedding_retry_count = 3`; it is
not left `pending`. -/
theorem C4_retry_exhaustion (d : Doc)
    (hstatus : d.embedding_status = "pending")
    (hretry : d.embedding_retry_count = 0)
    (htext : stripEmpty (embedText d) = false) :
    generate_embeddings_for_pending throttleSvc 3
      (generate_embeddings_for_pending throttleSvc 3
        (generate_embeddings_for_pending throttleSvc 3 [d])) =
      [throttleFailed 3 d] ∧
    (throttleFailed 3 d).embedding_retry_count = 3 ∧
    (throttleFailed 3 d).embedding_status ≠ "pending" := by
  simp [embedText] at htext
  have h1 : generate_embeddings_for_pending throttleSvc 3 [d] =
      [throttlePending 1 d] := by
    simp [generate_embeddings_for_pending, hstatus, runEmbeddingLoop,
      embedText, htext, throttleSvc, updateById, hretry, throttlePending]
  have h2 : generate_embeddings_for_pending throttleSvc 3
      [throttlePending 1 d] = [throttlePending 2 d] := by
    simp [generate_embeddings_for_pending, runEmbeddingLoop, throttleSvc,
      updateById, throttlePending, embedText, htext]
  have h3 : generate_embeddings_for_pending throttleSvc 3
      [throttlePending 2 d] = [throttleFailed 3 d] := by
    simp [generate_embeddings_for_pending, runEmbeddingLoop, throttleSvc,
      updateById, throttlePending, throttleFailed, setFailed, embedText,
      htext]
  rw [h1, h2, h3]
  exact ⟨rfl, rfl, by simp [throttleFailed]⟩

/-- A pending article with nonempty text, used to instantiate the
embedding-stage theorems. -/
def dPend : Doc :=
  { id := 7, url := "u", title := "t", summary := "", content := "c"
    source := "s", published := 0 }

/-- Witness for C4 at the concrete pending article `dPend`. -/
theorem C4_retry_exhaustion_witness :
    generate_embeddings_for_pending throttleSvc 3
      (generate_embeddings_for_pending throttleSvc 3
        (generate_embeddings_for_pending throttleSvc 3 [dPend])) =
      [throttleFailed 3 dPend] ∧
    (throttleFailed 3 dPend).embedding_retry_count = 3 ∧
    (throttleFailed 3 dPend).embedding_status ≠ "pending" :=
  C4_retry_exhaustion dPend (by decide) (by decide) (by decide)

/-- A `$vectorSearch` behaviour that fails on `dSimA`'s query and finds
`dSimC` as a 0.9-similar neighbour of `dSimB`. -/
def qC9 : Doc → Except String (List SimResult) := fun d =>
  if d.id = 1 then .error "vector search failed"
  else if d.id = 2 then .ok [⟨3, "s3", "tC", mkRat 9 10⟩]
  else .ok []

/-- The survivor had `dSimC` been consolidated into `dSimB`. -/
def dSimBC : Doc :=
  { dSimB with source_list := ["s2", "s3"], occurrence_count := 2 }

/-- Counterexample to claim C9: when the similarity query fails for the
first item, the whole run aborts with the store untouched — although the
remaining items, had they been processed as the claim requires, would have
consolidated `dSimC` into `dSimB`. -/
theorem C9_partial_progress_counterexample :
    deduplicate_articles qC9 [dSimA, dSimB, dSimC] =
      .error ("vector search failed", [dSimA, dSimB, dSimC])
    ∧ dedupLoop qC9 [dSimB, dSimC] [dSimA, dSimB, dSimC] =
      .ok [dSimA, dSimBC] := by
  refine ⟨by decide, by decide⟩

/-- Claim C9 amended: a failure of the similarity query for an item aborts
the rest of the run — the error propagates, the store keeps only the
mutations made before the failing item, and the items after it are never
examined. -/
theorem C9_query_failure_aborts (q : Doc → Except String (List SimResult))
    (s : Store) (a : Doc) (as : List Doc) (e : String)
    (hpresent : absentById s a.id = false) (hq : q a = .error e) :
    dedupLoop q (a :: as) s = .error (e, s) := by
  simp [dedupLoop, dedupStep, hpresent, hq]

/-- Witness for the amended C9 at the concrete failing query `qC9`. -/
theorem C9_query_failure_aborts_witness :
    dedupLoop qC9 (dSimA :: [dSimB, dSimC]) [dSimA, dSimB, dSimC] =
      .error ("vector search failed", [dSimA, dSimB, dSimC]) :=
  C9_query_failure_aborts qC9 [dSimA, dSimB, dSimC] dSimA [dSimB, dSimC]
    "vector search failed" (by decide) (by decide)

/-! ## C5: what an embedding run touches, and idempotence -/

/-- The loop leaves every position holding a document whose id is not the
id of any snapshot item exactly as it was. -/
theorem runEmbeddingLoop_untouched (svc : String → EmbedOutcome)
    (maxR : Nat) :
    ∀ (pend : List Doc) (cur : Store) (i : Nat) (d : Doc),
      (∀ a ∈ pend, a.id ≠ d.id) → cur[i]? = some d →
      (runEmbeddingLoop svc maxR pend cur)[i]? = some d := by
  intro pend
  induction pend with
  | nil => intro cur i d _ h; simpa [runEmbeddingLoop] using h
  | cons a as ih =>
    intro cur i d hids h
    have hne : d.id ≠ a.id := fun hh => hids a (by simp) hh.symm
    have hupd : ∀ f : Doc → Doc, (updateById cur a.id f)[i]? = some d := by
      intro f
      rw [updateById, List.getElem?_map _ cur i, h]
      simp [hne]
    have htail : ∀ a' ∈ as, a'.id ≠ d.id := fun a' ha' => hids a' (by simp [ha'])
    rw [runEmbeddingLoop]
    split
    · exact ih _ i d htail (hupd _)
    · cases hsv : svc (embedText a) with
      | success v => exact ih _ i d htail (hupd _)
      | throttle =>
        simp only []
        split
        · rw [updateById, List.getElem?_map, hupd]
          simp [hne]
        · exact hupd _
      | failure m => exact ih _ i d htail (hupd _)

/-- Claim C5 counterexample: with a throttling service and no external
state change, a second run of the embedding stage does not reproduce the
state of the first run (the retry counter advances again). -/
theorem C5_idempotence_counterexample :
    generate_embeddings_for_pending throttleSvc 3
        (generate_embeddings_for_pending throttleSvc 3 [dPend]) ≠
      generate_embeddings_for_pending throttleSvc 3 [dPend] := by decide

/-- After a run with a service that never throttles, no document is left
`pending`. -/
theorem runEmbeddingLoop_no_pending (svc : String → EmbedOutcome)
    (maxR : Nat) (hsvc : ∀ t, svc t ≠ .throttle) :
    ∀ (pend : List Doc) (cur : Store),
      (∀ d ∈ cur, d.embedding_status = "pending" → ∃ a ∈ pend, a.id = d.id) →
      ∀ d' ∈ runEmbeddingLoop svc maxR pend cur,
        d'.embedding_status ≠ "pending" := by
  intro pend
  induction pend with
  | nil =>
    intro cur hinv d' hd' hp
    obtain ⟨a, ha, -⟩ := hinv d' (by simpa [runEmbeddingLoop] using hd') hp
    simp at ha
  | cons a as ih =>
    intro cur hinv d' hd' hp
    have hstep : ∀ (f : Doc → Doc),
        (∀ d0, (f d0).embedding_status ≠ "pending") →
        ∀ d0 ∈ updateById cur a.id f,
          d0.embedding_status = "pending" → ∃ a' ∈ as, a'.id = d0.id := by
      intro f hf d0 hd0 hd0p
      obtain ⟨d1, hd1, rfl⟩ := List.mem_map.mp hd0
      by_cases hid : d1.id = a.id
      · exact absurd hd0p (by simp [hid, hf d1])
      · simp only [hid, if_neg] at hd0p ⊢
        obtain ⟨a', ha', haid⟩ := hinv d1 hd1 (by simpa [hid] using hd0p)
        rcases List.mem_cons.mp ha' with rfl | hmem
        · exact absurd haid.symm hid
        · exact ⟨a', hmem, haid⟩
    rw [runEmbeddingLoop] at hd'
    revert hd'
    split
    · intro hd'
      exact ih _ (hstep _ (fun d0 => by simp [setFailed])) d' hd' hp
    · cases hsv : svc (embedText a) with
      | success v =>
        intro hd'
        exact ih _ (hstep _ (fun d0 => by simp)) d' hd' hp
      | throttle => exact absurd hsv (hsvc _)
      | failure m =>
        intro hd'
        exact ih _ (hstep _ (fun d0 => by simp [setFailed])) d' hd' hp

/-- Claim C5 amended: an embedding run touches only `pending` documents —
every document not in `pending` status (in particular every `complete`
one) keeps all of its fields — and when the service never throttles, a
second consecutive run leaves the resulting store identical. (Under
throttling the retry counter advances on every run, so unconditional
idempotence fails; see the counterexample.) -/
theorem C5_pending_only_and_idempotence :
    (∀ (svc : String → EmbedOutcome) (maxR : Nat) (s : Store) (i : Nat)
        (d : Doc), (s.map Doc.id).Nodup → s[i]? = some d →
        d.embedding_status ≠ "pending" →
        (generate_embeddings_for_pending svc maxR s)[i]? = some d)
    ∧ (∀ (svc : String → EmbedOutcome) (maxR : Nat) (s : Store),
        (∀ t, svc t ≠ .throttle) →
        generate_embeddings_for_pending svc maxR
            (generate_embeddings_for_pending svc maxR s) =
          generate_embeddings_for_pending svc maxR s) := by
  constructor
  · intro svc maxR s i d hnodup hd hst
    apply runEmbeddingLoop_untouched
    · intro a ha heq
      have hmem := List.mem_filter.mp ha
      have : a = d :=
        List.inj_on_of_nodup_map hnodup hmem.1 (List.getElem?_mem hd) heq
      subst this
      exact hst (by simpa using hmem.2)
    · exact hd
  · intro svc maxR s hsvc
    have hnop : ∀ d' ∈ generate_embeddings_for_pending svc maxR s,
        d'.embedding_status ≠ "pending" := by
      intro d' hd'
      refine runEmbeddingLoop_no_pending svc maxR hsvc _ s ?_ d' hd'
      intro d hd hp
      exact ⟨d, List.mem_filter.mpr ⟨hd, by simp [hp]⟩, rfl⟩
    conv_lhs => rw [generate_embeddings_for_pending]
    rw [List.filter_eq_nil_iff.mpr (fun d hd => by simpa using hnop d hd),
      runEmbeddingLoop]

/-- A stored document whose embedding is already complete. -/
def dDone : Doc :=
  { id := 8, url := "u8", title := "t8", summary := "s8", content := "c8"
    source := "s", published := 0, embedding := some [1]
    embedding_status := "complete" }

/-- An embedding service that always succeeds. -/
def okSvc : String → EmbedOutcome := fun _ => .success [1]

/-- Witness for the amended C5: a complete document survives a run
unchanged, and with a never-throttling service a second run is
a no-op. -/
theorem C5_pending_only_and_idempotence_witness :
    (generate_embeddings_for_pending okSvc 3 [dDone])[0]? = some dDone
    ∧ generate_embeddings_for_pending okSvc 3
          (generate_embeddings_for_pending okSvc 3 [dPend]) =
        generate_embeddings_for_pending okSvc 3 [dPend] :=
  ⟨C5_pending_only_and_idempotence.1 okSvc 3 [dDone] 0 dDone (by decide)
      (by decide) (by decide),
   C5_pending_only_and_idempotence.2 okSvc 3 [dPend]
      (fun t h => EmbedOutcome.noConfusion h)⟩

/-! ## C6/C10: characterising `remove_duplicates` -/

/-- Membership in a stable insertion. -/
theorem mem_insertSorted {x b : Article} :
    ∀ {l : List Article}, b ∈ insertSorted x l ↔ b = x ∨ b ∈ l := by
  intro l
  induction l with
  | nil => simp [insertSorted]
  | cons y ys ih =>
    by_cases h : keyLE x y
    · simp [insertSorted, h]
    · simp [insertSorted, h, ih, or_assoc, or_left_comm]

/-- The sort is a permutation as far as membership goes. -/
theorem mem_sortByKey {b : Article} :
    ∀ {l : List Article}, b ∈ sortByKey l ↔ b ∈ l := by
  intro l
  induction l with
  | nil => simp [sortByKey]
  | cons x xs ih => simp [sortByKey, mem_insertSorted, ih]

/-- Code-point comparison is reflexive. -/
theorem charListLeB_refl : ∀ l : List Char, charListLeB l l = true := by
  intro l
  induction l with
  | nil => rfl
  | cons c t ih => simp [charListLeB, ih]

/-- Code-point comparison is total. -/
theorem charListLeB_total :
    ∀ a b : List Char, charListLeB a b = true ∨ charListLeB b a = true := by
  intro a
  induction a with
  | nil => intro b; left; rfl
  | cons x xs ih =>
    intro b
    cases b with
    | nil => right; rfl
    | cons y ys =>
      rcases Nat.lt_trichotomy x.toNat y.toNat with h | h | h
      · left; simp [charListLeB, h]
      · have h1 : ¬ x.toNat < y.toNat := by omega
        have h2 : ¬ y.toNat < x.toNat := by omega
        rcases ih ys with hl | hr
        · left; simp [charListLeB, h1, h2, hl]
        · right; simp [charListLeB, h1, h2, hr]
      · right; simp [charListLeB, h]

/-- Code-point comparison is transitive. -/
theorem charListLeB_trans :
    ∀ a b c : List Char, charListLeB a b = true → charListLeB b c = true →
      charListLeB a c = true := by
  intro a
  induction a with
  | nil => intro b c _ _; rfl
  | cons x xs ih =>
    intro b c hab hbc
    cases b with
    | nil => simp [charListLeB] at hab
    | cons y ys =>
      cases c with
      | nil => simp [charListLeB] at hbc
      | cons z zs =>
        simp only [charListLeB] at hab hbc ⊢
        rcases Nat.lt_trichotomy x.toNat y.toNat with hxy | hxy | hxy
        · rcases Nat.lt_trichotomy y.toNat z.toNat with hyz | hyz | hyz
          · simp [show x.toNat < z.toNat by omega]
          · simp [show x.toNat < z.toNat by omega]
          · rw [if_neg (by omega), if_pos hyz] at hbc
            exact absurd hbc (by simp)
        · rcases Nat.lt_trichotomy y.toNat z.toNat with hyz | hyz | hyz
          · simp [show x.toNat < z.toNat by omega]
          · rw [if_neg (by omega), if_neg (by omega)] at hab hbc ⊢
            exact ih ys zs hab hbc
          · rw [if_neg (by omega), if_pos hyz] at hbc
            exact absurd hbc (by simp)
        · rw [if_neg (by omega), if_pos hxy] at hab
          exact absurd hab (by simp)

/-- The sort key order is reflexive. -/
theorem keyLE_refl (a : Article) : keyLE a a :=
  Or.inr ⟨rfl, charListLeB_refl _⟩

/-- The sort key order is total. -/
theorem keyLE_total (a b : Article) : keyLE a b ∨ keyLE b a := by
  rcases Nat.lt_trichotomy (apiRank a) (apiRank b) with h | h | h
  · exact Or.inl (Or.inl h)
  · rcases charListLeB_total a.title.toList b.title.toList with ht | ht
    · exact Or.inl (Or.inr ⟨h, ht⟩)
    · exact Or.inr (Or.inr ⟨h.symm, ht⟩)
  · exact Or.inr (Or.inl h)

/-- The sort key order is transitive. -/
theorem keyLE_trans {a b c : Article} (hab : keyLE a b) (hbc : keyLE b c) :
    keyLE a c := by
  rcases hab with h1 | ⟨h1, t1⟩
  · rcases hbc with h2 | ⟨h2, t2⟩
    · exact Or.inl (h1.trans h2)
    · exact Or.inl (h2 ▸ h1)
  · rcases hbc with h2 | ⟨h2, t2⟩
    · exact Or.inl (h1 ▸ h2)
    · exact Or.inr ⟨h1.trans h2, charListLeB_trans _ _ _ t1 t2⟩

/-- Inserting into a key-sorted list keeps it key-sorted. -/
theorem pairwise_insertSorted (x : Article) :
    ∀ {l : List Article}, l.Pairwise keyLE →
      (insertSorted x l).Pairwise keyLE := by
  intro l
  induction l with
  | nil => intro _; simp [insertSorted]
  | cons y ys ih =>
    intro hp
    rcases List.pairwise_cons.mp hp with ⟨hy, hys⟩
    by_cases h : keyLE x y
    · rw [insertSorted, if_pos h]
      refine List.pairwise_cons.mpr ⟨?_, hp⟩
      intro z hz
      rcases List.mem_cons.mp hz with rfl | hz'
      · exact h
      · exact keyLE_trans h (hy z hz')
    · rw [insertSorted, if_neg h]
      refine List.pairwise_cons.mpr ⟨?_, ih hys⟩
      intro z hz
      rcases mem_insertSorted.mp hz with rfl | hz'
      · rcases keyLE_total z y with hh | hh
        · exact absurd hh h
        · exact hh
      · exact hy z hz'

/-- The model of Python `sorted` produces a key-sorted list. -/
theorem pairwise_sortByKey : ∀ l : List Article,
    (sortByKey l).Pairwise keyLE := by
  intro l
  induction l with
  | nil => simp [sortByKey]
  | cons x xs ih => exact pairwise_insertSorted x ih

/-- In a key-sorted list, `find?` returns the element that is a strict key
minimum among the matches (first among key ties is not needed here: the
hypothesis makes the match unique up to strictly larger keys). -/
theorem find?_eq_of_min (Q : Article → Bool) :
    ∀ (s : List Article), s.Pairwise keyLE → ∀ a ∈ s, Q a = true →
      (∀ z ∈ s, Q z = true → z = a ∨ ¬ keyLE z a) → s.find? Q = some a := by
  intro s
  induction s with
  | nil => intro _ a ha; simp at ha
  | cons c t ih =>
    intro hp a ha hQ hmin
    rcases List.pairwise_cons.mp hp with ⟨hc, ht⟩
    by_cases hQc : Q c = true
    · rcases hmin c (by simp) hQc with rfl | hlt
      · simp [List.find?, hQc]
      · rcases List.mem_cons.mp ha with rfl | hat
        · exact absurd (keyLE_refl a) hlt
        · exact absurd (hc a hat) hlt
    · have hac : a ≠ c := fun hh => hQc (hh ▸ hQ)
      have hat : a ∈ t := (List.mem_cons.mp ha).resolve_left hac
      rw [List.find?]
      rw [Bool.not_eq_true] at hQc
      rw [hQc]
      exact ih ht a hat hQ (fun z hz hQz => hmin z (by simp [hz]) hQz)

/-- Lookup across appending one entry at the end of `seen_content`. -/
theorem lookupSeen_append (acc : List ((String × String) × Article))
    (e : (String × String) × Article) (k : String × String) :
    lookupSeen (acc ++ [e]) k =
      match lookupSeen acc k with
      | some v => some v
      | none => if e.1 = k then some e.2 else none := by
  induction acc with
  | nil =>
    by_cases h : e.1 = k <;> simp [lookupSeen, List.find?, h]
  | cons p acc ih =>
    by_cases h : p.1 = k
    · simp [lookupSeen, List.find?, h]
    · simpa [lookupSeen, List.find?, h] using ih

/-- An empty lookup means no entry carries the key. -/
theorem lookupSeen_eq_none_iff (acc : List ((String × String) × Article))
    (k : String × String) :
    lookupSeen acc k = none ↔ ∀ e ∈ acc, e.1 ≠ k := by
  simp [lookupSeen, List.find?_eq_none]

/-- The dict built by `collectSeen` answers lookups by the first
processing-order occurrence of the key. -/
theorem collectSeen_lookup :
    ∀ (xs : List Article) (acc : List ((String × String) × Article))
      (k : String × String),
      lookupSeen (collectSeen xs acc) k =
        match lookupSeen acc k with
        | some v => some v
        | none => xs.find? (fun y => decide (normKeyOf y = k)) := by
  intro xs
  induction xs with
  | nil =>
    intro acc k
    cases h : lookupSeen acc k <;> simp [collectSeen, h]
  | cons x xs ih =>
    intro acc k
    rw [collectSeen]
    cases hx : lookupSeen acc (normKeyOf x) with
    | none =>
      rw [ih]
      rw [lookupSeen_append]
      by_cases hk : k = normKeyOf x
      · subst hk
        rw [hx]
        simp [List.find?]
      · cases hacc : lookupSeen acc k with
        | some v => simp [hacc]
        | none =>
          have : ¬ normKeyOf x = k := fun hh => hk hh.symm
          simp [hacc, this, List.find?]
    | some v =>
      rw [ih]
      by_cases hk : k = normKeyOf x
      · subst hk
        rw [hx]
      · cases hacc : lookupSeen acc k with
        | some w => simp [hacc]
        | none =>
          have : ¬ normKeyOf x = k := fun hh => hk hh.symm
          simp [hacc, this, List.find?]

/-- Every entry of the dict is keyed by the content key of its value. -/
theorem collectSeen_keys :
    ∀ (xs : List Article) (acc : List ((String × String) × Article)),
      (∀ e ∈ acc, e.1 = normKeyOf e.2) →
      ∀ e ∈ collectSeen xs acc, e.1 = normKeyOf e.2 := by
  intro xs
  induction xs with
  | nil => intro acc h; simpa [collectSeen] using h
  | cons x xs ih =>
    intro acc h
    rw [collectSeen]
    cases hx : lookupSeen acc (normKeyOf x) with
    | none =>
      refine ih _ ?_
      intro e he
      rcases List.mem_append.mp he with he' | he'
      · exact h e he'
      · simp at he'
        subst he'
        rfl
    | some v => exact ih _ h

/-- The dict keys are distinct. -/
theorem collectSeen_nodupKeys :
    ∀ (xs : List Article) (acc : List ((String × String) × Article)),
      (acc.map Prod.fst).Nodup →
      ((collectSeen xs acc).map Prod.fst).Nodup := by
  intro xs
  induction xs with
  | nil => intro acc h; simpa [collectSeen] using h
  | cons x xs ih =>
    intro acc h
    rw [collectSeen]
    cases hx : lookupSeen acc (normKeyOf x) with
    | none =>
      refine ih _ ?_
      rw [List.map_append]
      refine List.nodup_append.mpr ⟨h, by simp, ?_⟩
      intro k hk hk'
      simp at hk'
      rcases List.mem_map.mp hk with ⟨e, he, rfl⟩
      exact (lookupSeen_eq_none_iff acc (normKeyOf x)).mp hx e he hk'
    | some v => exact ih _ h

/-- `collectSeen` from the empty dict: lookup is `find?` in processing
order. -/
theorem collectSeen_lookup_nil (xs : List Article) (k : String × String) :
    lookupSeen (collectSeen xs []) k =
      xs.find? (fun y => decide (normKeyOf y = k)) := by
  rw [collectSeen_lookup xs [] k]
  rfl

/-- The survivors of `remove_duplicates` are exactly the values returned
by `find?` on the sorted list for their own content key. -/
theorem remove_duplicates_mem_iff (l : List Article) (v : Article) :
    v ∈ remove_duplicates l ↔
      (sortByKey l).find? (fun y => decide (normKeyOf y = normKeyOf v)) =
        some v := by
  have hlook := collectSeen_lookup_nil (sortByKey l) (normKeyOf v)
  constructor
  · intro hv
    rcases List.mem_map.mp hv with ⟨e, he, rfl⟩
    have hkey : e.1 = normKeyOf e.2 :=
      collectSeen_keys (sortByKey l) [] (by simp) e he
    rw [← hlook]
    cases hfind : lookupSeen (collectSeen (sortByKey l) []) (normKeyOf e.2) with
    | none =>
      exact absurd hkey
        ((lookupSeen_eq_none_iff _ _).mp hfind e he)
    | some w =>
      rcases Option.map_eq_some'.mp hfind with ⟨pe, hpe, rfl⟩
      have hpek : pe.1 = normKeyOf e.2 := by
        simpa using List.find?_some hpe
      have hpem : pe ∈ collectSeen (sortByKey l) [] :=
        List.mem_of_find?_eq_some hpe
      have hnodup : ((collectSeen (sortByKey l) []).map Prod.fst).Nodup :=
        collectSeen_nodupKeys (sortByKey l) [] (by simp)
      have : pe = e :=
        List.inj_on_of_nodup_map hnodup hpem he (by rw [hpek, hkey])
      rw [this]
  · intro hfind
    have hsome : lookupSeen (collectSeen (sortByKey l) []) (normKeyOf v) =
        some v := by rw [hlook]; exact hfind
    rcases Option.map_eq_some'.mp hsome with ⟨pe, hpe, rfl⟩
    exact List.mem_map.mpr ⟨pe, List.mem_of_find?_eq_some hpe, rfl⟩

/-- Claim C6: if an input list contains two items with the same normalised
(title, summary) key but different sources, exactly one of which is from a
priority (API) source, and no other item carries that key, then the
priority item survives `remove_duplicates` and the other is dropped —
whatever the input order (the statement never constrains the positions of
`a` and `b` in `l`). -/
theorem C6_priority_source_survives (l : List Article) (a b : Article)
    (ha : a ∈ l) (hb : b ∈ l) (hkey : normKeyOf a = normKeyOf b)
    (hapi : is_api_source a = true) (hnapi : is_api_source b = false)
    (hsrc : a.source ≠ b.source)
    (honly : ∀ c ∈ l, normKeyOf c = normKeyOf a → c = a ∨ c = b) :
    a ∈ remove_duplicates l ∧ b ∉ remove_duplicates l := by
  have hfind : (sortByKey l).find?
      (fun y => decide (normKeyOf y = normKeyOf a)) = some a := by
    apply find?_eq_of_min _ _ (pairwise_sortByKey l) a
      (mem_sortByKey.mpr ha) (by simp)
    intro z hz hQz
    have hzl : z ∈ l := mem_sortByKey.mp hz
    have hzk : normKeyOf z = normKeyOf a := by simpa using hQz
    rcases honly z hzl hzk with rfl | rfl
    · exact Or.inl rfl
    · refine Or.inr ?_
      intro hle
      rcases hle with h1 | ⟨h1, -⟩
      · simp [apiRank, hapi, hnapi] at h1
      · simp [apiRank, hapi, hnapi] at h1
  refine ⟨(remove_duplicates_mem_iff l a).mpr hfind, ?_⟩
  intro hbout
  have hfb := (remove_duplicates_mem_iff l b).mp hbout
  have heqp : (fun y => decide (normKeyOf y = normKeyOf b)) =
      (fun y => decide (normKeyOf y = normKeyOf a)) := by
    funext y; rw [hkey]
  rw [heqp, hfind] at hfb
  exact hsrc (by rw [Option.some.inj hfb])

/-- An item from a priority (API) source. -/
def artApi : Article :=
  { title := "T", url := "u1", source := "GNews API", published_date := 0
    content := "c1" }

/-- An item with the same content key from a secondary (RSS) source. -/
def artRss : Article :=
  { title := "T", url := "u2", source := "ABC News", published_date := 0
    content := "c2" }

/-- Witness for C6: with the API item listed second, it still survives and
the RSS duplicate is dropped. -/
theorem C6_priority_source_survives_witness :
    artApi ∈ remove_duplicates [artRss, artApi] ∧
      artRss ∉ remove_duplicates [artRss, artApi] :=
  C6_priority_source_survives [artRss, artApi] artApi artRss (by decide)
    (by decide) (by decide) (by decide) (by decide) (by decide)
    (by decide)

/-- Claim C10: an article whose title and summary both normalise to the
empty string gets the key `("", "")`, and among two or more such articles
in an input list exactly one survives `remove_duplicates` — the rest are
silently dropped regardless of their remaining fields. -/
theorem C10_empty_key_collapse :
    (∀ a : Article, pyStripLower a.title = "" →
      pyStripLower (a.summary.getD "") = "" → normKeyOf a = ("", ""))
    ∧ ∀ (l : List Article) (a b : Article), a ∈ l → b ∈ l → a ≠ b →
        normKeyOf a = ("", "") → normKeyOf b = ("", "") →
        ∃ x, (x ∈ remove_duplicates l ∧ normKeyOf x = ("", "")) ∧
          ∀ y, y ∈ remove_duplicates l → normKeyOf y = ("", "") → y = x := by
  constructor
  · intro a h1 h2; simp [normKeyOf, h1, h2]
  · intro l a b ha _ _ hka _
    have hamem : a ∈ sortByKey l := mem_sortByKey.mpr ha
    obtain ⟨z, hz⟩ : ∃ z, (sortByKey l).find?
        (fun y => decide (normKeyOf y = ("", ""))) = some z := by
      cases hfind : (sortByKey l).find?
          (fun y => decide (normKeyOf y = ("", ""))) with
      | none =>
        exfalso
        have hnone := List.find?_eq_none.mp hfind a hamem
        simp [hka] at hnone
      | some z => exact ⟨z, rfl⟩
    have hkz : normKeyOf z = ("", "") := by simpa using List.find?_some hz
    have hzmem : z ∈ remove_duplicates l := by
      apply (remove_duplicates_mem_iff l z).mpr
      rw [show (fun y => decide (normKeyOf y = normKeyOf z)) =
          (fun y => decide (normKeyOf y = (("", "") : String × String)))
        from by funext y; rw [hkz]]
      exact hz
    refine ⟨z, ⟨hzmem, hkz⟩, ?_⟩
    intro y hy hky
    have hfy := (remove_duplicates_mem_iff l y).mp hy
    rw [show (fun c => decide (normKeyOf c = normKeyOf y)) =
        (fun c => decide (normKeyOf c = (("", "") : String × String)))
      from by funext c; rw [hky], hz] at hfy
    exact (Option.some.inj hfy).symm

/-- An unrelated story whose title and summary are whitespace only. -/
def artBlank1 : Article :=
  { title := " ", url := "w1", source := "A", published_date := 0
    content := "story one" }

/-- Another unrelated story with an empty title and blank summary. -/
def artBlank2 : Article :=
  { title := "", url := "w2", source := "B", published_date := 0
    content := "story two", summary := some "  " }

/-- Witness for C10 at two concrete blank-keyed articles. -/
theorem C10_empty_key_collapse_witness :
    ∃ x, (x ∈ remove_duplicates [artBlank1, artBlank2] ∧
        normKeyOf x = ("", "")) ∧
      ∀ y, y ∈ remove_duplicates [artBlank1, artBlank2] →
        normKeyOf y = ("", "") → y = x :=
  C10_empty_key_collapse.2 [artBlank1, artBlank2] artBlank1 artBlank2
    (by decide) (by decide) (by decide) (by decide) (by decide)

/-! ## C8: highlight scoring and top-5 selection -/

/-- Whether the lowercased title-plus-summary contains some breaking-news
keyword (at word boundaries). -/
def hasBreakingKeyword (d : Doc) : Bool :=
  HIGHLIGHT_KEYWORDS.any
    (fun kw => reWordSearch kw (pyLower d.title ++ " " ++ pyLower d.summary))

/-- Stable descending insertion preserves length. -/
theorem insertDescBy_length (score : Doc → ℚ) (x : Doc) :
    ∀ l : List Doc, (insertDescBy score x l).length = l.length + 1 := by
  intro l
  induction l with
  | nil => rfl
  | cons y ys ih =>
    by_cases h : score y ≤ score x
    · simp [insertDescBy, h]
    · simp [insertDescBy, h, ih]

/-- Stable descending sort preserves length. -/
theorem sortDescBy_length (score : Doc → ℚ) :
    ∀ l : List Doc, (sortDescBy score l).length = l.length := by
  intro l
  induction l with
  | nil => rfl
  | cons x xs ih => simp [sortDescBy, insertDescBy_length, ih]

/-- Claim C8: the highlight score is 0.6 when a breaking-news keyword is
present (0 otherwise) plus 0.4·min(occurrence_count/10, 1); a run maps
every stored document to: highlighted when its id is among the per-category
top-5 ids (stable descending sort by score, first five), reset to
unhighlighted when merely inside the recency window, untouched otherwise;
and per category the selected ids number min(5, category size). -/
theorem C8_highlight_top5 :
    (∀ d : Doc, calculate_highlight_score d =
      (if hasBreakingKeyword d then 6/10 else 0) +
        4/10 * min ((d.occurrence_count : ℚ) / 10) 1)
    ∧ (∀ (cutoff : ℚ) (store : Store) (i : Nat) (d : Doc),
        store[i]? = some d →
        (update_highlights cutoff store)[i]? = some
          (if (topHighlightIds cutoff store).contains d.id then
            { d with highlight := true }
          else if inWindow cutoff d then { d with highlight := false }
          else d))
    ∧ (∀ (cutoff : ℚ) (store : Store) (c : String),
        (((sortDescBy calculate_highlight_score
            ((store.filter (inWindow cutoff)).filter
              (fun d => catOf d = c))).take HIGHLIGHT_COUNT).map
          Doc.id).length =
        min HIGHLIGHT_COUNT
          ((store.filter (inWindow cutoff)).filter
            (fun d => catOf d = c)).length) := by
  refine ⟨?_, ?_, ?_⟩
  · intro d
    rw [calculate_highlight_score, hasBreakingKeyword]
    have hcnt : (0 < HIGHLIGHT_KEYWORDS.countP
        (fun kw => reWordSearch kw
          (pyLower d.title ++ " " ++ pyLower d.summary))) ↔
        (HIGHLIGHT_KEYWORDS.any
          (fun kw => reWordSearch kw
            (pyLower d.title ++ " " ++ pyLower d.summary)) = true) := by
      rw [List.countP_pos_iff, List.any_eq_true]
    by_cases h : HIGHLIGHT_KEYWORDS.any
        (fun kw => reWordSearch kw
          (pyLower d.title ++ " " ++ pyLower d.summary)) = true
    · rw [if_pos (hcnt.mpr h), if_pos h]
      rw [KEYWORD_WEIGHT, FREQUENCY_WEIGHT, mul_comm]
    · rw [if_neg (fun hh => h (hcnt.mp hh)), if_neg h]
      rw [FREQUENCY_WEIGHT, mul_comm]
  · intro cutoff store i d hd
    rw [update_highlights]
    by_cases hemp : (store.filter (inWindow cutoff)).isEmpty = true
    · rw [if_pos hemp]
      have hfe : store.filter (inWindow cutoff) = [] :=
        List.isEmpty_iff.mp hemp
      have hids : topHighlightIds cutoff store = [] := by
        rw [topHighlightIds, hfe]
        rfl
      have hwin : inWindow cutoff d = false := by
        have := List.filter_eq_nil_iff.mp hfe d (List.getElem?_mem hd)
        simpa using this
      rw [hids, hwin]
      simpa using hd
    · rw [if_neg hemp]
      rw [List.getElem?_map _ store i, hd]
      rfl
  · intro cutoff store c
    rw [List.length_map, List.length_take, sortDescBy_length]

/-- A recent highlighted-category document. -/
def dHi : Doc :=
  { id := 9, url := "u9", title := "Breaking: markets move"
    summary := "alert", content := "", source := "s", published := 1
    category := some "finance", occurrence_count := 3 }

/-- Witness for C8: a one-document window is exactly its own category
top-5, so the run highlights it. -/
theorem C8_highlight_top5_witness :
    (update_highlights 0 [dHi])[0]? = some { dHi with highlight := true } := by
  have h := C8_highlight_top5.2.1 0 [dHi] 0 dHi rfl
  rw [h]
  decide

/-! ## C2/C3: classifier gate and scoring formula -/

/-- With no occurring terms the scoring fold stays at its start. -/
theorem tfidfScoreFold_of_tf_zero (logQ : ℚ → ℚ) (tf : String → Nat)
    (h : ∀ t, tf t = 0) :
    ∀ kws : List (String × ℚ), tfidfScoreFold logQ tf kws = (0, 0) := by
  intro kws
  rw [tfidfScoreFold]
  induction kws with
  | nil => rfl
  | cons p ps ih => simpa [h p.1] using ih

/-- With no occurring terms every category scores zero. -/
theorem tfidfScore_of_tf_zero (logQ : ℚ → ℚ) (sqrtQ : Nat → ℚ)
    (tf : String → Nat) (h : ∀ t, tf t = 0) (kws : List (String × ℚ)) :
    tfidfScore logQ sqrtQ tf kws = 0 := by
  rw [tfidfScore, tfidfScoreFold_of_tf_zero logQ tf h]
  rfl

/-- An empty token list gives zero term frequencies. -/
theorem termFreqOf_of_words_nil (text : String)
    (h : extractWords text = []) : ∀ t, termFreqOf text t = 0 := by
  intro t
  rw [termFreqOf, h]
  rfl

/-- A term's document frequency is bounded by the number of categories. -/
theorem docFreq_le_numCategories (t : String) :
    docFreq t ≤ categoryNames.length :=
  List.length_filter_le _ _

/-- Every IDF value is nonnegative when the log model is nonnegative at
arguments ≥ 1 (as `math.log` is). -/
theorem idfVal_nonneg (logQ : ℚ → ℚ) (hlog : ∀ q : ℚ, 1 ≤ q → 0 ≤ logQ q)
    (t : String) : 0 ≤ idfVal logQ t := by
  rw [idfVal]
  split
  · apply hlog
    rw [one_le_div (by exact_mod_cast (by assumption : 0 < docFreq t))]
    exact_mod_cast docFreq_le_numCategories t
  · exact zero_le_one

/-- The scoring fold keeps the accumulated score nonnegative. -/
theorem tfidfScoreFold_nonneg (logQ : ℚ → ℚ) (tf : String → Nat)
    (hlog : ∀ q : ℚ, 1 ≤ q → 0 ≤ logQ q) :
    ∀ (kws : List (String × ℚ)) (init : ℚ × Nat),
      (∀ p ∈ kws, 0 ≤ p.2) → 0 ≤ init.1 →
      0 ≤ (kws.foldl (fun acc p =>
        if tf p.1 ≠ 0 then
          (acc.1 + (tf p.1 : ℚ) * idfVal logQ p.1 * p.2, acc.2 + 1)
        else acc) init).1 := by
  intro kws
  induction kws with
  | nil => intro init _ h0; simpa using h0
  | cons p ps ih =>
    intro init hw h0
    rw [List.foldl_cons]
    by_cases h : tf p.1 ≠ 0
    · refine ih _ (fun q hq => hw q (by simp [hq])) ?_
      simp only [if_pos h]
      have : 0 ≤ (tf p.1 : ℚ) * idfVal logQ p.1 * p.2 :=
        mul_nonneg (mul_nonneg (by positivity) (idfVal_nonneg logQ hlog _))
          (hw p (by simp))
      exact add_nonneg h0 this
    · refine ih _ (fun q hq => hw q (by simp [hq])) ?_
      simpa [h] using h0

/-- Category scores are nonnegative. -/
theorem tfidfScore_nonneg (logQ : ℚ → ℚ) (sqrtQ : Nat → ℚ)
    (tf : String → Nat) (kws : List (String × ℚ))
    (hlog : ∀ q : ℚ, 1 ≤ q → 0 ≤ logQ q)
    (hsqrt : ∀ n : Nat, 0 < n → 0 < sqrtQ n)
    (hw : ∀ p ∈ kws, 0 ≤ p.2) :
    0 ≤ tfidfScore logQ sqrtQ tf kws := by
  rw [tfidfScore]
  have hfold : 0 ≤ (tfidfScoreFold logQ tf kws).1 := by
    rw [tfidfScoreFold]
    exact tfidfScoreFold_nonneg logQ tf hlog kws (0, 0) hw le_rfl
  split
  · exact div_nonneg hfold (le_of_lt (hsqrt _ (by assumption)))
  · exact hfold

/-- All keyword weights in the tables are nonnegative. -/
theorem all_weights_nonneg :
    ∀ c : String, ∀ p ∈ keywordsOf c, (0 : ℚ) ≤ p.2 := by
  intro c p hp
  rw [keywordsOf] at hp
  split_ifs at hp
  · exact (by decide : ∀ p ∈ sportsKeywords, (0 : ℚ) ≤ p.2) p hp
  · exact (by decide : ∀ p ∈ musicKeywords, (0 : ℚ) ≤ p.2) p hp
  · exact (by decide : ∀ p ∈ financeKeywords, (0 : ℚ) ≤ p.2) p hp
  · exact (by decide : ∀ p ∈ lifestyleKeywords, (0 : ℚ) ≤ p.2) p hp
  · simp at hp

/-- The summed total of the category scores is nonnegative. -/
theorem classifyTotal_nonneg (logQ : ℚ → ℚ) (sqrtQ : Nat → ℚ)
    (hlog : ∀ q : ℚ, 1 ≤ q → 0 ≤ logQ q)
    (hsqrt : ∀ n : Nat, 0 < n → 0 < sqrtQ n)
    (title content summary : String) :
    0 ≤ classifyTotal logQ sqrtQ title content summary := by
  rw [classifyTotal]
  refine List.sum_nonneg ?_
  intro x hx
  rcases List.mem_map.mp hx with ⟨pr, hpr, rfl⟩
  rcases List.mem_map.mp hpr with ⟨c, -, rfl⟩
  exact tfidfScore_nonneg logQ sqrtQ _ _ hlog hsqrt (all_weights_nonneg c)

/-- `classify` as a decision chain over the named score quantities
(definitional reformulation). -/
theorem classify_eq (logQ : ℚ → ℚ) (sqrtQ : Nat → ℚ)
    (title content summary : String) :
    classify logQ sqrtQ title content summary =
      if (extractWords (combinedText title content summary)).isEmpty then
        (none, 0)
      else if classifyTotal logQ sqrtQ title content summary = 0 then
        (none, 0)
      else if shareRejected
          (if 0 < classifyTotal logQ sqrtQ title content summary then
            classifyBest logQ sqrtQ title content summary /
              classifyTotal logQ sqrtQ title content summary
          else 0) then (none, 0)
      else if min (classifyBest logQ sqrtQ title content summary / 5) 1 <
          5/100 then (none, 0)
      else
        (some (argmaxFirst
            (classifyScores logQ sqrtQ title content summary)).1,
          min (classifyBest logQ sqrtQ title content summary / 5) 1) :=
  rfl

/-- Claim C2: `classify` returns `(none, 0)` exactly when the total score
is zero, the best share `best/total` is strictly below 0.05, or the
normalised confidence `min(best/5, 1)` is strictly below 0.05; the share
gate uses a strict comparison, so exactly 0.05 passes and 0.049999 is
rejected. -/
theorem C2_confidence_gate (logQ : ℚ → ℚ) (sqrtQ : Nat → ℚ)
    (hlog : ∀ q : ℚ, 1 ≤ q → 0 ≤ logQ q)
    (hsqrt : ∀ n : Nat, 0 < n → 0 < sqrtQ n)
    (title content summary : String) :
    (classify logQ sqrtQ title content summary = (none, 0) ↔
      (classifyTotal logQ sqrtQ title content summary = 0 ∨
        classifyBest logQ sqrtQ title content summary /
          classifyTotal logQ sqrtQ title content summary < 5/100 ∨
        min (classifyBest logQ sqrtQ title content summary / 5) 1 <
          5/100))
    ∧ shareRejected (5/100) = false
    ∧ shareRejected (49999/1000000) = true := by
  refine ⟨?_, by norm_num [shareRejected], by norm_num [shareRejected]⟩
  rw [classify_eq]
  by_cases hw : (extractWords (combinedText title content summary)).isEmpty
  · rw [if_pos hw]
    have hT : classifyTotal logQ sqrtQ title content summary = 0 := by
      rw [classifyTotal, classifyScores]
      have htf := termFreqOf_of_words_nil _ (List.isEmpty_iff.mp hw)
      have hz : ∀ c, tfidfScore logQ sqrtQ
          (termFreqOf (combinedText title content summary))
          (keywordsOf c) = 0 :=
        fun c => tfidfScore_of_tf_zero logQ sqrtQ _ htf _
      simp only [hz, List.map_map]
      rw [show (Prod.snd ∘ fun c : String => (c, (0 : ℚ))) =
        (fun _ => (0 : ℚ)) from rfl]
      simp
    exact ⟨fun _ => Or.inl hT, fun _ => rfl⟩
  · rw [if_neg hw]
    by_cases h0 : classifyTotal logQ sqrtQ title content summary = 0
    · rw [if_pos h0]
      exact ⟨fun _ => Or.inl h0, fun _ => rfl⟩
    · rw [if_neg h0]
      have hpos : 0 < classifyTotal logQ sqrtQ title content summary :=
        lt_of_le_of_ne (classifyTotal_nonneg logQ sqrtQ hlog hsqrt _ _ _)
          (Ne.symm h0)
      rw [if_pos hpos]
      by_cases hsh : classifyBest logQ sqrtQ title content summary /
          classifyTotal logQ sqrtQ title content summary < 5/100
      · rw [if_pos (by simpa [shareRejected] using hsh)]
        exact ⟨fun _ => Or.inr (Or.inl hsh), fun _ => rfl⟩
      · rw [if_neg (by simpa [shareRejected] using hsh)]
        by_cases hcf : min
            (classifyBest logQ sqrtQ title content summary / 5) 1 < 5/100
        · rw [if_pos hcf]
          exact ⟨fun _ => Or.inr (Or.inr hcf), fun _ => rfl⟩
        · rw [if_neg hcf]
          constructor
          · intro hcontra
            exact absurd (congrArg Prod.fst hcontra) (by simp)
          · intro hdisj
            rcases hdisj with h | h | h
            · exact absurd h h0
            · exact absurd h hsh
            · exact absurd h hcf

/-- The trivial nonnegative log model, for instantiating the gate
theorem. -/
def zeroLog : ℚ → ℚ := fun _ => 0

/-- The trivial positive sqrt model. -/
def oneSqrt : Nat → ℚ := fun _ => 1

/-- Witness for C2 at a concrete input and concrete log/sqrt models. -/
theorem C2_confidence_gate_witness :
    (classify zeroLog oneSqrt "cricket wicket" "" "" = (none, 0) ↔
      (classifyTotal zeroLog oneSqrt "cricket wicket" "" "" = 0 ∨
        classifyBest zeroLog oneSqrt "cricket wicket" "" "" /
          classifyTotal zeroLog oneSqrt "cricket wicket" "" "" < 5/100 ∨
        min (classifyBest zeroLog oneSqrt "cricket wicket" "" "" / 5) 1 <
          5/100))
    ∧ shareRejected (5/100) = false
    ∧ shareRejected (49999/1000000) = true :=
  C2_confidence_gate zeroLog oneSqrt (fun _ _ => le_refl 0)
    (fun _ _ => one_pos) "cricket wicket" "" ""

/-- A keyword of a listed category occurs in at least one category table,
so its IDF entry exists. -/
theorem docFreq_pos_of_mem (c : String) (hc : c ∈ categoryNames)
    (p : String × ℚ) (hp : p ∈ keywordsOf c) : 0 < docFreq p.1 := by
  rw [docFreq]
  have hmem : c ∈ categoryNames.filter
      (fun c' => (keywordsOf c').any (fun q => q.1 == p.1)) :=
    List.mem_filter.mpr ⟨hc, List.any_eq_true.mpr ⟨p, hp, by simp⟩⟩
  exact List.length_pos.mpr (List.ne_nil_of_mem hmem)

/-- The scoring fold computes the sum over the matching keywords and
their count. -/
theorem tfidfScoreFold_eq (logQ : ℚ → ℚ) (tf : String → Nat) :
    ∀ (kws : List (String × ℚ)) (init : ℚ × Nat),
      kws.foldl (fun acc p =>
        if tf p.1 ≠ 0 then
          (acc.1 + (tf p.1 : ℚ) * idfVal logQ p.1 * p.2, acc.2 + 1)
        else acc) init =
      (init.1 + ((kws.filter (fun p => tf p.1 ≠ 0)).map
          (fun p => (tf p.1 : ℚ) * idfVal logQ p.1 * p.2)).sum,
        init.2 + (kws.filter (fun p => tf p.1 ≠ 0)).length) := by
  intro kws
  induction kws with
  | nil => intro init; simp
  | cons p ps ih =>
    intro init
    rw [List.foldl_cons]
    by_cases h : tf p.1 ≠ 0
    · rw [if_pos h, ih]
      simp [h, add_assoc]
      omega
    · rw [if_neg h, ih]
      simp [h]

/-- The code's per-category score equals the specification's formula
whenever every keyword of the table has an IDF entry. -/
theorem tfidfScore_eq_spec (logQ : ℚ → ℚ) (sqrtQ : Nat → ℚ)
    (tf : String → Nat) (kws : List (String × ℚ))
    (hidf : ∀ p ∈ kws, 0 < docFreq p.1) :
    tfidfScore logQ sqrtQ tf kws = specCategoryScore logQ sqrtQ tf kws := by
  rw [tfidfScore, specCategoryScore, tfidfScoreFold, tfidfScoreFold_eq]
  have hmap : (kws.filter (fun p => tf p.1 ≠ 0)).map
      (fun p => (tf p.1 : ℚ) * idfVal logQ p.1 * p.2) =
      (kws.filter (fun p => tf p.1 ≠ 0)).map
        (fun p => (tf p.1 : ℚ) * specIdf logQ p.1 * p.2) := by
    refine List.map_congr_left ?_
    intro p hp
    have hpk : p ∈ kws := (List.mem_filter.mp hp).1
    rw [idfVal, if_pos (hidf p hpk), specIdf]
  dsimp only
  rw [zero_add, zero_add, hmap]
  by_cases hlen : (kws.filter (fun p => tf p.1 ≠ 0)).length = 0
  · have hnil : kws.filter (fun p => tf p.1 ≠ 0) = [] :=
      List.length_eq_zero.mp hlen
    rw [hnil]
    simp
  · rw [if_pos (Nat.pos_of_ne_zero hlen)]

/-- The weighted text built by the code equals the one the specification
describes: title ×3, summary ×2, first 1000 characters of content. -/
theorem combinedText_eq_spec (title content summary : String) :
    combinedText title content summary =
      specWeightedText title content summary := by
  rw [combinedText, specWeightedText]
  simp [String.join, String.append_assoc]

/-- Claim C3: `classify` scores the weighted text of the spec (lowercased,
non-word characters except hyphens stripped, unigram and bigram counts),
and each listed category's score equals
`(Σ termFreq(t)·idf(t)·weight(t) over matching keywords)/sqrt(matchCount)`
with `idf(t) = log(numCategories/numCategoriesContaining(t))`. -/
theorem C3_scoring_formula (logQ : ℚ → ℚ) (sqrtQ : Nat → ℚ)
    (title content summary : String) (c : String)
    (hc : c ∈ categoryNames) :
    combinedText title content summary =
      specWeightedText title content summary
    ∧ tfidfScore logQ sqrtQ
        (termFreqOf (combinedText title content summary)) (keywordsOf c) =
      specCategoryScore logQ sqrtQ
        (termFreqOf (combinedText title content summary)) (keywordsOf c)
    ∧ classifyScores logQ sqrtQ title content summary =
        categoryNames.map (fun c' => (c',
          specCategoryScore logQ sqrtQ
            (termFreqOf (specWeightedText title content summary))
            (keywordsOf c'))) := by
  refine ⟨combinedText_eq_spec title content summary, ?_, ?_⟩
  · exact tfidfScore_eq_spec logQ sqrtQ _ _
      (fun p hp => docFreq_pos_of_mem c hc p hp)
  · rw [classifyScores]
    refine List.map_congr_left ?_
    intro c' hc'
    rw [tfidfScore_eq_spec logQ sqrtQ _ _
      (fun p hp => docFreq_pos_of_mem c' hc' p hp),
      combinedText_eq_spec]

/-- Witness for C3 at a concrete input and category. -/
theorem C3_scoring_formula_witness :
    combinedText "cricket news" "body text" "short summary" =
      specWeightedText "cricket news" "body text" "short summary"
    ∧ tfidfScore zeroLog oneSqrt
        (termFreqOf (combinedText "cricket news" "body text"
          "short summary")) (keywordsOf "sports") =
      specCategoryScore zeroLog oneSqrt
        (termFreqOf (combinedText "cricket news" "body text"
          "short summary")) (keywordsOf "sports")
    ∧ classifyScores zeroLog oneSqrt "cricket news" "body text"
        "short summary" =
        categoryNames.map (fun c' => (c',
          specCategoryScore zeroLog oneSqrt
            (termFreqOf (specWeightedText "cricket news" "body text"
              "short summary"))
            (keywordsOf c'))) :=
  C3_scoring_formula zeroLog oneSqrt "cricket news" "body text"
    "short summary" "sports" (by decide)

/-! ## C7: the source-list/occurrence-count invariant -/

/-- The invariant on a raw `Article`: its own source is among
`source_list` and `occurrence_count` counts the list's entries. -/
def sourceInvA (a : Article) : Prop :=
  a.source ∈ a.source_list ∧ a.occurrence_count = a.source_list.length

/-- The invariant on a stored document. -/
def sourceInv (d : Doc) : Prop :=
  d.source ∈ d.source_list ∧ d.occurrence_count = d.source_list.length

/-- The invariant over a whole store. -/
def storeInv (s : Store) : Prop := ∀ d ∈ s, sourceInv d

/-- The invariant over a run result, including the store carried by a
propagated error. -/
def storeInvE : Except (String × Store) Store → Prop
  | .ok s => storeInv s
  | .error (_, s) => storeInv s

instance (a : Article) : Decidable (sourceInvA a) := by
  unfold sourceInvA; infer_instance

instance (d : Doc) : Decidable (sourceInv d) := by
  unfold sourceInv; infer_instance

instance (s : Store) : Decidable (storeInv s) := by
  unfold storeInv; infer_instance

/-- The classification step of `lambda_function.py`: assigning
`article.category` and `article.confidence`. -/
def setCategory (a : Article) (cat : Option String) (conf : ℚ) : Article :=
  { a with category := cat, confidence := conf }

/-- The document written by the load step: `article.to_dict()` plus
`embedding_status = 'pending'` (a summary of `None` is stored as the
falsy empty string, which every reader treats like `None`). -/
def Article.toDoc (a : Article) (newId : Nat) : Doc :=
  { id := newId, url := a.url, title := a.title
    summary := a.summary.getD "", content := a.content, source := a.source
    published := a.published_date, category := a.category
    confidence := a.confidence, embedding := a.embedding
    embedding_status := "pending", source_list := a.source_list
    occurrence_count := a.occurrence_count, highlight := a.highlight }

/-- `update_one({'url': ...}, {'$set': doc}, upsert=True)` when a match
exists: the first matching document receives every field of `doc` but
keeps its `_id`. -/
def replaceFirstByUrl : Store → Doc → Store
  | [], _ => []
  | d :: t, doc =>
    if d.url = doc.url then { doc with id := d.id } :: t
    else d :: replaceFirstByUrl t doc

/-- The full upsert: replace the first url match or append. -/
def upsertByUrl (s : Store) (doc : Doc) : Store :=
  if s.any (fun d => d.url = doc.url) then replaceFirstByUrl s doc
  else s ++ [doc]

/-- `foldl addSource` never loses members of the accumulator. -/
theorem mem_foldl_addSource (x : String) :
    ∀ (l : List String) (acc : List String), x ∈ acc →
      x ∈ l.foldl addSource acc := by
  intro l
  induction l with
  | nil => intro acc h; simpa using h
  | cons y ys ih =>
    intro acc h
    rw [List.foldl_cons]
    refine ih _ ?_
    rw [addSource]
    split
    · exact h
    · exact List.mem_append.mpr (Or.inl h)

/-- The anchor's own source is always in the consolidated source set. -/
theorem mem_unionSources (anchor : Doc) (sims : List SimResult) :
    anchor.source ∈ unionSources anchor sims :=
  mem_foldl_addSource _ _ _ (by simp)

/-- Survivors of `remove_duplicates` come from the input list. -/
theorem remove_duplicates_subset {l : List Article} {v : Article}
    (h : v ∈ remove_duplicates l) : v ∈ l :=
  mem_sortByKey.mp
    (List.mem_of_find?_eq_some ((remove_duplicates_mem_iff l v).mp h))

/-- A per-document update preserves the store invariant when the update
preserves the document invariant. -/
theorem updateById_inv {s : Store} {i : Nat} {f : Doc → Doc}
    (hs : storeInv s) (hf : ∀ d, sourceInv d → sourceInv (f d)) :
    storeInv (updateById s i f) := by
  intro d' hd'
  rcases List.mem_map.mp hd' with ⟨d, hd, rfl⟩
  by_cases h : d.id = i
  · simpa [h] using hf d (hs d hd)
  · simpa [h] using hs d hd

/-- An embedding run preserves the store invariant: its updates never
touch `source`, `source_list` or `occurrence_count`. -/
theorem runEmbeddingLoop_inv (svc : String → EmbedOutcome) (maxR : Nat) :
    ∀ (pend : List Doc) (cur : Store), storeInv cur →
      storeInv (runEmbeddingLoop svc maxR pend cur) := by
  intro pend
  induction pend with
  | nil => intro cur h; simpa [runEmbeddingLoop] using h
  | cons a as ih =>
    intro cur h
    rw [runEmbeddingLoop]
    split
    · exact ih _ (updateById_inv h (fun d hd => by
        simpa [setFailed, sourceInv] using hd))
    · split
      · exact ih _ (updateById_inv h (fun d hd => by
          simpa [sourceInv] using hd))
      · dsimp only
        split
        · refine updateById_inv (updateById_inv h ?_) ?_
          · intro d hd; simpa [sourceInv] using hd
          · intro d hd; simpa [setFailed, sourceInv] using hd
        · exact updateById_inv h (fun d hd => by
            simpa [sourceInv] using hd)
      · exact ih _ (updateById_inv h (fun d hd => by
          simpa [setFailed, sourceInv] using hd))

/-- The deduplication loop establishes the invariant on the survivor it
rewrites and preserves it everywhere else, also in the store carried by a
propagated error. -/
theorem dedupLoop_inv (q : Doc → Except String (List SimResult)) :
    ∀ (pend : List Doc) (cur : Store), storeInv cur →
      (∀ d ∈ cur, ∀ a ∈ pend, d.id = a.id → d.source = a.source) →
      storeInvE (dedupLoop q pend cur) := by
  intro pend
  induction pend with
  | nil => intro cur h _; exact h
  | cons a as ih =>
    intro cur h hsrc
    rw [dedupLoop]
    cases hstep : dedupStep q cur a with
    | error e => exact h
    | ok s' =>
      have hsrc' : ∀ d ∈ cur, ∀ a' ∈ as, d.id = a'.id →
          d.source = a'.source :=
        fun d hd a' ha' => hsrc d hd a' (by simp [ha'])
      rw [dedupStep] at hstep
      by_cases habs : absentById cur a.id = true
      · rw [if_pos habs] at hstep
        cases hstep
        exact ih _ h hsrc'
      · rw [if_neg habs] at hstep
        cases hq : q a with
        | error e => rw [hq] at hstep; cases hstep
        | ok rs =>
          rw [hq] at hstep
          dsimp only at hstep
          by_cases hemp : (simFilter a.id rs).isEmpty = true
          · rw [if_pos hemp] at hstep
            cases hstep
            exact ih _ h hsrc'
          · rw [if_neg hemp] at hstep
            cases hstep
            set srcs := unionSources a (simFilter a.id rs) with hsrcs
            set f : Doc → Doc := fun d =>
              { d with source_list := srcs
                       occurrence_count := srcs.length } with hf
            have hupd : storeInv (updateById cur a.id f) := by
              intro d' hd'
              rcases List.mem_map.mp hd' with ⟨d, hd, rfl⟩
              by_cases hid : d.id = a.id
              · have hds : d.source = a.source :=
                  hsrc d hd a (by simp) hid
                refine ⟨?_, ?_⟩
                · simpa [hf, hid, hds] using mem_unionSources a _
                · simp [hf, hid]
              · simpa [hid] using h d hd
            have hdel : storeInv (deleteByIds (updateById cur a.id f)
                ((simFilter a.id rs).map SimResult.id)) :=
              fun d' hd' => hupd d' (List.mem_of_mem_filter hd')
            refine ih _ hdel ?_
            intro d' hd' a' ha' hid
            have hd'' := List.mem_of_mem_filter hd'
            rcases List.mem_map.mp hd'' with ⟨d, hd, rfl⟩
            by_cases hida : d.id = a.id
            · have : d.id = a'.id := by simpa [hf, hida] using hid
              simpa [hf, hida] using hsrc' d hd a' ha' this
            · simp only [hf, hida, if_neg] at hid ⊢
              exact hsrc' d hd a' ha' (by simpa [hida] using hid)

/-- Replacing the first url match preserves the store invariant when the
incoming document satisfies it. -/
theorem replaceFirstByUrl_inv :
    ∀ (s : Store) (doc : Doc), storeInv s → sourceInv doc →
      storeInv (replaceFirstByUrl s doc) := by
  intro s
  induction s with
  | nil => intro doc _ _ d hd; simp [replaceFirstByUrl] at hd
  | cons d0 t ih =>
    intro doc hs hdoc
    rw [replaceFirstByUrl]
    split
    · intro d' hd'
      rcases List.mem_cons.mp hd' with rfl | hmem
      · simpa [sourceInv] using hdoc
      · exact hs d' (by simp [hmem])
    · intro d' hd'
      rcases List.mem_cons.mp hd' with rfl | hmem
      · exact hs d' (by simp)
      · exact ih doc (fun d hd => hs d (by simp [hd])) hdoc d' hmem

/-- Claim C7: every pipeline operation leaves each persisted article with
its own source inside `source_list` and `occurrence_count` equal to the
number of `source_list` entries — construction (`__post_init__` with
defaulted provenance), exact dedup, classification assignment and the
upserting load step, embedding runs, semantic-dedup consolidation
(including an error-carried store), and highlighting. -/
theorem C7_source_invariant :
    (∀ (title url source : String) (published : ℚ) (content : String)
        (summary author category image_url : Option String)
        (keywords0 : Option (List String)),
      sourceInvA (Article.construct title url source published content
        summary author category image_url keywords0 none none))
    ∧ (∀ l : List Article, (∀ a ∈ l, sourceInvA a) →
        ∀ v ∈ remove_duplicates l, sourceInvA v)
    ∧ (∀ (a : Article) (cat : Option String) (conf : ℚ),
        sourceInvA a → sourceInvA (setCategory a cat conf))
    ∧ (∀ (s : Store) (a : Article) (i : Nat), storeInv s → sourceInvA a →
        storeInv (upsertByUrl s (a.toDoc i)))
    ∧ (∀ (svc : String → EmbedOutcome) (maxR : Nat) (s : Store),
        storeInv s → storeInv (generate_embeddings_for_pending svc maxR s))
    ∧ (∀ (q : Doc → Except String (List SimResult)) (s : Store),
        (s.map Doc.id).Nodup → storeInv s →
        storeInvE (deduplicate_articles q s))
    ∧ (∀ (cutoff : ℚ) (s : Store), storeInv s →
        storeInv (update_highlights cutoff s)) := by
  refine ⟨?_, ?_, ?_, ?_, ?_, ?_, ?_⟩
  · intro title url source published content summary author category
      image_url keywords0
    simp [Article.construct, sourceInvA]
  · exact fun l hl v hv => hl v (remove_duplicates_subset hv)
  · intro a cat conf h
    simpa [setCategory, sourceInvA] using h
  · intro s a i hs ha
    have hdoc : sourceInv (a.toDoc i) := by
      simpa [Article.toDoc, sourceInv, sourceInvA] using ha
    rw [upsertByUrl]
    split
    · exact replaceFirstByUrl_inv s _ hs hdoc
    · intro d' hd'
      rcases List.mem_append.mp hd' with hmem | hmem
      · exact hs d' hmem
      · simp at hmem
        subst hmem
        exact hdoc
  · intro svc maxR s hs
    rw [generate_embeddings_for_pending]
    exact runEmbeddingLoop_inv svc maxR _ s hs
  · intro q s hnodup hs
    rw [deduplicate_articles]
    refine dedupLoop_inv q _ s hs ?_
    intro d hd a ha hid
    have haS : a ∈ s := (List.mem_filter.mp ha).1
    rw [List.inj_on_of_nodup_map hnodup hd haS hid]
  · intro cutoff s hs
    rw [update_highlights]
    split
    · exact hs
    · intro d' hd'
      rcases List.mem_map.mp hd' with ⟨d, hd, rfl⟩
      split
      · simpa [sourceInv] using hs d hd
      · split
        · simpa [sourceInv] using hs d hd
        · exact hs d hd

/-- An article as the pipeline constructs it. -/
def artC7 : Article :=
  Article.construct "t7" "u7" "s7" 0 "c7" none none none none none none
    none

/-- A stored document satisfying the invariant. -/
def dInv : Doc :=
  { id := 11, url := "u11", title := "t11", summary := "", content := "c"
    source := "s", published := 1, source_list := ["s"]
    occurrence_count := 1 }

/-- Witness for C7 at concrete articles and a concrete store. -/
theorem C7_source_invariant_witness :
    sourceInvA (Article.construct "t7" "u7" "s7" 0 "c7" none none none
      none none none none)
    ∧ (∀ v ∈ remove_duplicates [artC7], sourceInvA v)
    ∧ sourceInvA (setCategory artC7 (some "finance") 1)
    ∧ storeInv (upsertByUrl [dInv] (artC7.toDoc 12))
    ∧ storeInv (generate_embeddings_for_pending okSvc 3 [dInv])
    ∧ storeInvE (deduplicate_articles (qSim (mkRat 86 100)) [dInv])
    ∧ storeInv (update_highlights 0 [dInv]) :=
  ⟨C7_source_invariant.1 "t7" "u7" "s7" 0 "c7" none none none none none,
   C7_source_invariant.2.1 [artC7] (by decide),
   C7_source_invariant.2.2.1 artC7 (some "finance") 1 (by decide),
   C7_source_invariant.2.2.2.1 [dInv] artC7 12 (by decide) (by decide),
   C7_source_invariant.2.2.2.2.1 okSvc 3 [dInv] (by decide),
   C7_source_invariant.2.2.2.2.2.1 (qSim (mkRat 86 100)) [dInv]
     (by decide) (by decide),
   C7_source_invariant.2.2.2.2.2.2 0 [dInv] (by decide)⟩

end NewsRAG
